import Mathlib

/-!
Verification of the track-generation and race-geometry core of the BevyDriver
repository.  The definitions below are shallow embeddings of the Rust source
(`src/road/*`, `src/hud/*`, `src/car/systems.rs`, `src/collision/helpers.rs`):
grid arithmetic is carried out on `ℤ × ℤ`, `HashSet<IVec2>` is modelled by a
duplicate-free `List` with `List.insert` / `List.erase`, `f32` quantities that
are only compared are modelled by `ℚ`, and the real-valued geometry kernel is
modelled over `ℝ`.
-/

/-- Grid directions, from `src/road/components.rs` (`enum Direction`). -/
inductive Direction : Type
  | up
  | down
  | left
  | right
deriving DecidableEq, Repr

/-- Road segment kinds, from `src/road/components.rs` (`enum RoadSegmentType`). -/
inductive RoadSegmentType : Type
  | straight
  | cornerLeft
  | cornerRight
deriving DecidableEq, Repr

/-- A grid cell (the Rust `IVec2`). -/
abbrev Cell : Type := ℤ × ℤ

/-- `get_exit_direction` from `src/road/helpers.rs`: exit direction of a
segment entered while travelling in `entry`. -/
def getExitDirection (entry : Direction) (segmentType : RoadSegmentType) : Direction :=
  match segmentType with
  | .straight => entry
  | .cornerLeft =>
    match entry with
    | .up => .left
    | .left => .down
    | .down => .right
    | .right => .up
  | .cornerRight =>
    match entry with
    | .up => .right
    | .right => .down
    | .down => .left
    | .left => .up

/-- `get_next_grid_position` from `src/road/track_generator.rs`. -/
def getNextGridPosition (pos : Cell) (dir : Direction) : Cell :=
  match dir with
  | .up => (pos.1, pos.2 + 1)
  | .down => (pos.1, pos.2 - 1)
  | .left => (pos.1 - 1, pos.2)
  | .right => (pos.1 + 1, pos.2)

/-- The grid origin `IVec2::ZERO`. -/
def originCell : Cell := ((0 : ℤ), (0 : ℤ))

/-- States visited by walking a layout starting at `pos` heading `dir`:
one `(position, exit direction)` pair per segment. -/
def walkFrom (pos : Cell) (dir : Direction) : List RoadSegmentType → List (Cell × Direction)
  | [] => []
  | s :: rest =>
    let pos' := getNextGridPosition pos dir
    let dir' := getExitDirection dir s
    (pos', dir') :: walkFrom pos' dir' rest

/-- All states of the walk of a layout from the grid origin heading Up,
including the initial state. -/
def walkStates (layout : List RoadSegmentType) : List (Cell × Direction) :=
  (originCell, Direction.up) :: walkFrom originCell Direction.up layout

/-- Final `(position, direction)` after walking a layout from `pos`, `dir`. -/
def walkEnd (pos : Cell) (dir : Direction) : List RoadSegmentType → Cell × Direction
  | [] => (pos, dir)
  | s :: rest => walkEnd (getNextGridPosition pos dir) (getExitDirection dir s) rest

/-- The spec's acceptance predicate for a layout: non-empty, the walk from the
origin heading Up is self-avoiding (all states but the last sit on pairwise
distinct cells), and the walk returns to the origin heading Up as its final
step. -/
def acceptsSpec (layout : List RoadSegmentType) : Prop :=
  layout ≠ [] ∧
    (((walkStates layout).map Prod.fst).dropLast).Nodup ∧
    (walkStates layout).getLast? = some (originCell, Direction.up)

/-- Inner loop of `validate_track_layout` from `src/road/helpers.rs`:
`true` models normal return, `false` models a panic. -/
def validateGo : Direction → Cell → List Cell → List RoadSegmentType → Bool
  | _, _, _, [] => false
  | dir, pos, visited, s :: rest =>
    let pos' := getNextGridPosition pos dir
    if pos' = originCell then
      decide (getExitDirection dir s = Direction.up)
    else if pos' ∈ visited then
      false
    else
      validateGo (getExitDirection dir s) pos' (pos' :: visited) rest

/-- `validate_track_layout` from `src/road/helpers.rs`: `true` models a run
without panic, `false` models one of its panics. -/
def validateTrackLayout (layout : List RoadSegmentType) : Bool :=
  if layout.isEmpty then false
  else validateGo Direction.up originCell [originCell] layout

example : validateTrackLayout [.cornerLeft, .cornerLeft, .cornerLeft, .cornerLeft] = true := by
  decide

example : validateTrackLayout [.straight] = false := by decide

example : validateTrackLayout [.cornerLeft, .cornerLeft, .cornerLeft, .cornerLeft, .straight]
    = true := by decide

theorem walkFrom_length (L : List RoadSegmentType) :
    ∀ (pos : Cell) (dir : Direction), (walkFrom pos dir L).length = L.length := by
  induction L with
  | nil => intro pos dir; rfl
  | cons s rest ih => intro pos dir; simp [walkFrom, ih]

/-- The acceptance condition realised by `validateGo` from an intermediate
state: some positive prefix of the remaining layout walks onto cells outside
`visited`, pairwise distinct, and lands on the origin heading Up. -/
def goSpecProp (pos : Cell) (dir : Direction) (visited : List Cell)
    (L : List RoadSegmentType) : Prop :=
  ∃ k, 1 ≤ k ∧ k ≤ L.length ∧
    (∀ c ∈ ((walkFrom pos dir (L.take k)).map Prod.fst).dropLast, c ∉ visited) ∧
    (((walkFrom pos dir (L.take k)).map Prod.fst).dropLast).Nodup ∧
    (walkFrom pos dir (L.take k)).getLast? = some (originCell, Direction.up)

theorem goSpecProp_cons {s : RoadSegmentType} {rest : List RoadSegmentType}
    {pos : Cell} {dir : Direction} {visited : List Cell}
    (h0 : getNextGridPosition pos dir ≠ originCell)
    (hnv : getNextGridPosition pos dir ∉ visited) :
    goSpecProp pos dir visited (s :: rest) ↔
      goSpecProp (getNextGridPosition pos dir) (getExitDirection dir s)
        (getNextGridPosition pos dir :: visited) rest := by
  constructor
  · rintro ⟨k, hk1, hkle, hnvv, hnd, hlast⟩
    obtain ⟨j, rfl⟩ : ∃ j, k = j + 1 := ⟨k - 1, by omega⟩
    rw [List.take_succ_cons] at hnvv hnd hlast
    have hw : walkFrom pos dir (s :: rest.take j) =
        (getNextGridPosition pos dir, getExitDirection dir s) ::
          walkFrom (getNextGridPosition pos dir) (getExitDirection dir s) (rest.take j) := by
      simp [walkFrom]
    rw [hw] at hnvv hnd hlast
    cases hj : rest.take j with
    | nil =>
      exfalso
      rw [hj] at hlast
      simp [walkFrom, Prod.ext_iff] at hlast
      exact h0 (Prod.ext hlast.1.1 hlast.1.2)
    | cons t ts =>
      rw [hj] at hnvv hnd hlast
      have htail : walkFrom (getNextGridPosition pos dir) (getExitDirection dir s) (t :: ts) ≠ [] := by
        simp [walkFrom]
      obtain ⟨w, ws, hW⟩ := List.exists_cons_of_ne_nil htail
      rw [hW] at hnvv hnd hlast
      have hj1 : 1 ≤ j := by
        rcases Nat.eq_zero_or_pos j with h | h
        · subst h; simp at hj
        · exact h
      have hkle' : j ≤ rest.length := by
        simp only [List.length_cons] at hkle
        omega
      refine ⟨j, hj1, hkle', ?_, ?_, ?_⟩
      · intro c hc
        have hc' : c ∈ (((getNextGridPosition pos dir, getExitDirection dir s) :: w :: ws).map
            Prod.fst).dropLast := by
          rw [hj, hW] at hc
          simp only [List.map_cons, List.dropLast_cons₂] at hc ⊢
          exact List.mem_cons_of_mem _ hc
        have := hnvv c hc'
        intro hcin
        rcases List.mem_cons.mp hcin with h | h
        · -- c = next position, but Nodup says next position not in the tail dropLast
          subst h
          have hnodup := hnd
          simp only [List.map_cons, List.dropLast_cons₂, List.nodup_cons] at hnodup
          rw [hj, hW] at hc
          exact hnodup.1 hc
        · exact this h
      · have := hnd
        simp only [List.map_cons, List.dropLast_cons₂, List.nodup_cons] at this
        rw [hj, hW]
        exact this.2
      · rw [hj, hW]
        rw [List.getLast?_cons_cons] at hlast
        exact hlast
  · rintro ⟨j, hj1, hjle, hnvv, hnd, hlast⟩
    have hlen : (walkFrom (getNextGridPosition pos dir) (getExitDirection dir s)
        (rest.take j)).length = min j rest.length := by
      rw [walkFrom_length]; simp
    have hne : walkFrom (getNextGridPosition pos dir) (getExitDirection dir s)
        (rest.take j) ≠ [] := by
      apply List.ne_nil_of_length_pos
      omega
    obtain ⟨w, ws, hW⟩ := List.exists_cons_of_ne_nil hne
    refine ⟨j + 1, by omega, by simp; omega, ?_, ?_, ?_⟩
    · rw [List.take_succ_cons]
      have hw : walkFrom pos dir (s :: rest.take j) =
          (getNextGridPosition pos dir, getExitDirection dir s) ::
            walkFrom (getNextGridPosition pos dir) (getExitDirection dir s) (rest.take j) := by
        simp [walkFrom]
      rw [hw, hW]
      simp only [List.map_cons, List.dropLast_cons₂]
      intro c hc
      rcases List.mem_cons.mp hc with h | h
      · subst h; exact hnv
      · have := hnvv c (by rw [hW]; simpa using h)
        intro hcv
        exact this (List.mem_cons_of_mem _ hcv)
    · rw [List.take_succ_cons]
      have hw : walkFrom pos dir (s :: rest.take j) =
          (getNextGridPosition pos dir, getExitDirection dir s) ::
            walkFrom (getNextGridPosition pos dir) (getExitDirection dir s) (rest.take j) := by
        simp [walkFrom]
      rw [hw, hW]
      simp only [List.map_cons, List.dropLast_cons₂, List.nodup_cons]
      constructor
      · intro hmem
        have := hnvv _ (by rw [hW]; simpa using hmem)
        exact this (List.mem_cons_self _ _)
      · have := hnd
        rw [hW] at this
        simpa using this
    · rw [List.take_succ_cons]
      have hw : walkFrom pos dir (s :: rest.take j) =
          (getNextGridPosition pos dir, getExitDirection dir s) ::
            walkFrom (getNextGridPosition pos dir) (getExitDirection dir s) (rest.take j) := by
        simp [walkFrom]
      rw [hw, hW, List.getLast?_cons_cons]
      rw [hW] at hlast
      exact hlast

theorem validateGo_iff (L : List RoadSegmentType) :
    ∀ (pos : Cell) (dir : Direction) (visited : List Cell), originCell ∈ visited →
      (validateGo dir pos visited L = true ↔ goSpecProp pos dir visited L) := by
  induction L with
  | nil =>
    intro pos dir visited _
    constructor
    · intro h; simp [validateGo] at h
    · rintro ⟨k, hk1, hk0, -⟩
      simp at hk0
      omega
  | cons s rest ih =>
    intro pos dir visited hvis
    by_cases h0 : getNextGridPosition pos dir = originCell
    · rw [show validateGo dir pos visited (s :: rest) =
          decide (getExitDirection dir s = Direction.up) from by simp [validateGo, h0]]
      constructor
      · intro hdec
        have hup : getExitDirection dir s = Direction.up := of_decide_eq_true hdec
        refine ⟨1, le_refl 1, by simp, ?_, ?_, ?_⟩
        · simp [walkFrom]
        · simp [walkFrom]
        · simp [walkFrom, h0, hup]
      · rintro ⟨k, hk1, hkle, hnvv, hnd, hlast⟩
        obtain ⟨j, rfl⟩ : ∃ j, k = j + 1 := ⟨k - 1, by omega⟩
        rw [List.take_succ_cons] at hnvv hlast
        have hw : walkFrom pos dir (s :: rest.take j) =
            (getNextGridPosition pos dir, getExitDirection dir s) ::
              walkFrom (getNextGridPosition pos dir) (getExitDirection dir s) (rest.take j) := by
          simp [walkFrom]
        rw [hw] at hnvv hlast
        cases hj : rest.take j with
        | nil =>
          rw [hj] at hlast
          simp [walkFrom, Prod.ext_iff] at hlast
          exact decide_eq_true (by exact hlast.2)
        | cons t ts =>
          exfalso
          rw [hj] at hnvv
          have htail : walkFrom (getNextGridPosition pos dir) (getExitDirection dir s)
              (t :: ts) ≠ [] := by simp [walkFrom]
          obtain ⟨w, ws, hW⟩ := List.exists_cons_of_ne_nil htail
          rw [hW] at hnvv
          have : getNextGridPosition pos dir ∉ visited := by
            apply hnvv
            simp only [List.map_cons, List.dropLast_cons₂]
            exact List.mem_cons_self _ _
          rw [h0] at this
          exact this hvis
    · by_cases hmem : getNextGridPosition pos dir ∈ visited
      · rw [show validateGo dir pos visited (s :: rest) = false from by
          simp [validateGo, h0, hmem]]
        constructor
        · intro h; cases h
        · rintro ⟨k, hk1, hkle, hnvv, hnd, hlast⟩
          obtain ⟨j, rfl⟩ : ∃ j, k = j + 1 := ⟨k - 1, by omega⟩
          rw [List.take_succ_cons] at hnvv hlast
          have hw : walkFrom pos dir (s :: rest.take j) =
              (getNextGridPosition pos dir, getExitDirection dir s) ::
                walkFrom (getNextGridPosition pos dir) (getExitDirection dir s) (rest.take j) := by
            simp [walkFrom]
          rw [hw] at hnvv hlast
          cases hj : rest.take j with
          | nil =>
            rw [hj] at hlast
            simp [walkFrom, Prod.ext_iff] at hlast
            exact absurd (Prod.ext hlast.1.1 hlast.1.2) h0
          | cons t ts =>
            rw [hj] at hnvv
            have htail : walkFrom (getNextGridPosition pos dir) (getExitDirection dir s)
                (t :: ts) ≠ [] := by simp [walkFrom]
            obtain ⟨w, ws, hW⟩ := List.exists_cons_of_ne_nil htail
            rw [hW] at hnvv
            have : getNextGridPosition pos dir ∉ visited := by
              apply hnvv
              simp only [List.map_cons, List.dropLast_cons₂]
              exact List.mem_cons_self _ _
            exact absurd hmem this
      · rw [show validateGo dir pos visited (s :: rest) =
            validateGo (getExitDirection dir s) (getNextGridPosition pos dir)
              (getNextGridPosition pos dir :: visited) rest from by
          simp [validateGo, h0, hmem]]
        rw [ih _ _ _ (List.mem_cons_of_mem _ hvis)]
        exact (goSpecProp_cons h0 hmem).symm

theorem acceptsSpec_iff_goSpec (M : List RoadSegmentType) (hM : M ≠ []) :
    acceptsSpec M ↔
      ((∀ c ∈ ((walkFrom originCell Direction.up M).map Prod.fst).dropLast, c ∉ [originCell]) ∧
        (((walkFrom originCell Direction.up M).map Prod.fst).dropLast).Nodup ∧
        (walkFrom originCell Direction.up M).getLast? = some (originCell, Direction.up)) := by
  have hne : walkFrom originCell Direction.up M ≠ [] := by
    apply List.ne_nil_of_length_pos
    rw [walkFrom_length]
    exact List.length_pos.mpr hM
  obtain ⟨w, ws, hW⟩ := List.exists_cons_of_ne_nil hne
  unfold acceptsSpec walkStates
  rw [hW]
  simp only [List.map_cons, List.dropLast_cons₂, List.nodup_cons, List.getLast?_cons_cons,
    List.mem_singleton]
  constructor
  · rintro ⟨-, ⟨hnotin, hnd⟩, hlast⟩
    exact ⟨fun c hc hceq => hnotin (hceq ▸ hc), hnd, hlast⟩
  · rintro ⟨hall, hnd, hlast⟩
    exact ⟨hM, ⟨fun hmem => hall _ hmem rfl, hnd⟩, hlast⟩

/-- C2 (amended): `validate_track_layout` succeeds (does not panic) exactly on
layouts with a positive prefix whose walk from the origin heading Up is
self-avoiding and returns to the origin heading Up on the prefix's final
segment; segments after that first closing return are ignored. -/
theorem validate_track_layout_closing_prefix_iff (L : List RoadSegmentType) :
    validateTrackLayout L = true ↔
      ∃ k, 1 ≤ k ∧ k ≤ L.length ∧ acceptsSpec (L.take k) := by
  by_cases hL : L = []
  · subst hL
    constructor
    · intro h; simp [validateTrackLayout] at h
    · rintro ⟨k, hk1, hk0, -⟩
      simp at hk0
      omega
  · rw [show validateTrackLayout L = validateGo Direction.up originCell [originCell] L from by
      simp [validateTrackLayout, hL]]
    rw [validateGo_iff L originCell Direction.up [originCell] (by simp)]
    unfold goSpecProp
    apply exists_congr
    intro k
    constructor
    · rintro ⟨hk1, hkle, hnvv, hnd, hlast⟩
      have htk : L.take k ≠ [] := by
        apply List.ne_nil_of_length_pos
        simp only [List.length_take]
        omega
      exact ⟨hk1, hkle, (acceptsSpec_iff_goSpec _ htk).mpr ⟨hnvv, hnd, hlast⟩⟩
    · rintro ⟨hk1, hkle, hacc⟩
      have htk : L.take k ≠ [] := by
        apply List.ne_nil_of_length_pos
        simp only [List.length_take]
        omega
      obtain ⟨hnvv, hnd, hlast⟩ := (acceptsSpec_iff_goSpec _ htk).mp hacc
      exact ⟨hk1, hkle, hnvv, hnd, hlast⟩

/-- C2 counterexample: the layout `[CornerLeft, CornerLeft, CornerLeft,
CornerLeft, Straight]` is accepted by `validate_track_layout` (the walk closes
at the origin after four segments and the trailing segment is never examined),
yet its full walk is not self-avoiding and does not end at the origin, so the
claim's characterisation is false for it. -/
theorem c2_claim_counterexample :
    validateTrackLayout [.cornerLeft, .cornerLeft, .cornerLeft, .cornerLeft, .straight] = true ∧
      ¬ acceptsSpec [.cornerLeft, .cornerLeft, .cornerLeft, .cornerLeft, .straight] := by
  refine ⟨by decide, fun h => ?_⟩
  have hlast := h.2.2
  rw [show (walkStates [.cornerLeft, .cornerLeft, .cornerLeft, .cornerLeft, .straight]).getLast?
      = some ((((0 : ℤ), (1 : ℤ)) : Cell), Direction.up) from by decide] at hlast
  simp [originCell, Prod.ext_iff] at hlast

/-- `TrackGeneratorConfig` from `src/road/track_generator.rs`; `usize` fields
become `ℕ` and the `f32` difficulty becomes `ℚ`. -/
structure TrackGeneratorConfig : Type where
  minSegments : ℕ
  maxSegments : ℕ
  targetDifficulty : ℚ
  seed : ℕ
deriving DecidableEq, Repr

/-- `MIN_VALID_SEGMENTS` from `src/road/track_generator.rs`. -/
def MIN_VALID_SEGMENTS : ℕ := 4

/-- `WINDOW_WIDTH` from `src/constants.rs`. -/
def WINDOW_WIDTH : ℕ := 1300

/-- `WINDOW_HEIGHT` from `src/constants.rs`. -/
def WINDOW_HEIGHT : ℕ := 800

/-- `max_grid_segments` from `src/road/track_generator.rs`.
`ROAD_SEGMENT_LENGTH` is `50.0`; the `f32` divisions
`WINDOW_WIDTH / 2.0 / 50.0 = 13.0` and `WINDOW_HEIGHT / 2.0 / 50.0 = 8.0`
are exact, so the `as usize` truncations coincide with `ℕ` division by 50. -/
def maxGridSegments : ℕ :=
  let margin := 2
  let halfWidth := WINDOW_WIDTH / 2 / 50 - margin
  let halfHeight := WINDOW_HEIGHT / 2 / 50 - margin
  let gridWidth := 2 * halfWidth + 1
  let gridHeight := 2 * halfHeight + 1
  gridWidth * gridHeight

example : maxGridSegments = 299 := by decide

/-- `TrackGeneratorConfig::validate` from `src/road/track_generator.rs`:
`true` models a validation that passes, `false` models one of its panics
(checked in source order). -/
def validateConfig (c : TrackGeneratorConfig) : Bool :=
  if c.minSegments < MIN_VALID_SEGMENTS then false
  else if c.maxSegments < MIN_VALID_SEGMENTS then false
  else if c.maxSegments > maxGridSegments then false
  else if c.minSegments > c.maxSegments then false
  else if c.targetDifficulty < 0 ∨ c.targetDifficulty > 1 then false
  else true

theorem validateConfig_false_iff (c : TrackGeneratorConfig) :
    validateConfig c = false ↔
      (c.minSegments < 4 ∨ c.maxSegments > maxGridSegments ∨ c.minSegments > c.maxSegments ∨
        c.targetDifficulty < 0 ∨ 1 < c.targetDifficulty) := by
  unfold validateConfig MIN_VALID_SEGMENTS
  split_ifs with h1 h2 h3 h4 h5
  · exact iff_of_true rfl (Or.inl h1)
  · exact iff_of_true rfl (Or.inr (Or.inr (Or.inl (by omega))))
  · exact iff_of_true rfl (Or.inr (Or.inl h3))
  · exact iff_of_true rfl (Or.inr (Or.inr (Or.inl h4)))
  · refine iff_of_true rfl ?_
    rcases h5 with h | h
    · exact Or.inr (Or.inr (Or.inr (Or.inl h)))
    · exact Or.inr (Or.inr (Or.inr (Or.inr h)))
  · refine iff_of_false (by simp) ?_
    push_neg at h5
    rintro (h | h | h | h | h)
    · exact h1 h
    · exact h3 h
    · exact h4 h
    · exact absurd h (not_lt.mpr h5.1)
    · exact absurd h (not_lt.mpr h5.2)

/-- C6: config validation fails (panics, so generation is never attempted)
exactly when `min_segments < 4`, `max_segments > max_grid_segments()`,
`min_segments > max_segments`, or `target_difficulty` lies outside `[0, 1]`;
in particular `max_segments = max_grid_segments() + 1` always fails. -/
theorem validate_config_fails_iff :
    (∀ c : TrackGeneratorConfig, validateConfig c = false ↔
      (c.minSegments < 4 ∨ c.maxSegments > maxGridSegments ∨ c.minSegments > c.maxSegments ∨
        c.targetDifficulty < 0 ∨ 1 < c.targetDifficulty)) ∧
    (∀ c : TrackGeneratorConfig, c.maxSegments = maxGridSegments + 1 →
      validateConfig c = false) :=
  ⟨fun c => validateConfig_false_iff c,
   fun c h => (validateConfig_false_iff c).mpr (Or.inr (Or.inl (by omega)))⟩

/-- Witness for `validate_config_fails_iff`: the config with
`max_segments = max_grid_segments() + 1` is rejected. -/
theorem validate_config_fails_iff_witness :
    validateConfig ⟨4, maxGridSegments + 1, 1/2, 42⟩ = false :=
  validate_config_fails_iff.2 ⟨4, maxGridSegments + 1, 1/2, 42⟩ rfl

/-- `has_adjacent_visited` from `src/road/track_generator.rs`. -/
def hasAdjacentVisited (pos : Cell) (previousPos : Cell) (visited : List Cell) : Bool :=
  let neighbors : List Cell :=
    [(pos.1 + 1, pos.2), (pos.1 - 1, pos.2), (pos.1, pos.2 + 1), (pos.1, pos.2 - 1)]
  neighbors.any (fun nb => decide (nb ≠ previousPos ∧ nb ≠ originCell ∧ nb ∈ visited))

/-- `can_close_loop` from `src/road/track_generator.rs`. -/
def canCloseLoop (currentPos : Cell) (currentDir : Direction) (visited : List Cell) :
    Option RoadSegmentType :=
  let nextPos := getNextGridPosition currentPos currentDir
  if nextPos ≠ originCell then none
  else
    let firstCellAfterOrigin : Cell := ((0 : ℤ), (1 : ℤ))
    let neighbors : List Cell :=
      [((0 : ℤ), (1 : ℤ)), ((0 : ℤ), (-1 : ℤ)), ((1 : ℤ), (0 : ℤ)), ((-1 : ℤ), (0 : ℤ))]
    if neighbors.any
        (fun nb => decide (nb ≠ currentPos ∧ nb ≠ firstCellAfterOrigin ∧ nb ∈ visited)) then
      none
    else
      [RoadSegmentType.straight, RoadSegmentType.cornerLeft, RoadSegmentType.cornerRight].find?
        (fun seg => decide (getExitDirection currentDir seg = Direction.up))

/-- `get_valid_moves` from `src/road/track_generator.rs`. -/
def getValidMoves (currentPos : Cell) (currentDir : Direction) (visited : List Cell)
    (halfWidth halfHeight : ℤ) : List RoadSegmentType :=
  let nextPos := getNextGridPosition currentPos currentDir
  if |nextPos.1| > halfWidth ∨ |nextPos.2| > halfHeight then []
  else if nextPos ∈ visited ∧ nextPos ≠ originCell then []
  else if hasAdjacentVisited nextPos currentPos visited then []
  else [.straight, .cornerLeft, .cornerRight]

/-- `choose_segment` from `src/road/track_generator.rs`.  The two RNG draws
`rng.random()` become the abstract rolls `roll` and `cornerRoll`; the final
`rng.random_range(0..len)` draw becomes `fallbackIdx % len` (the contract of
`random_range` on a non-empty range), and `none` models its panic on an empty
range. -/
def chooseSegment (validMoves : List RoadSegmentType) (roll cornerRoll : ℚ)
    (targetDifficulty : ℚ) (fallbackIdx : ℕ) : Option RoadSegmentType :=
  let straightChance := 8/10 - 6/10 * targetDifficulty
  if roll < straightChance ∧ RoadSegmentType.straight ∈ validMoves then
    some .straight
  else
    let cornerChoice : Option RoadSegmentType :=
      if cornerRoll < 1/2 then
        if RoadSegmentType.cornerLeft ∈ validMoves then some .cornerLeft
        else if RoadSegmentType.cornerRight ∈ validMoves then some .cornerRight
        else none
      else
        if RoadSegmentType.cornerRight ∈ validMoves then some .cornerRight
        else if RoadSegmentType.cornerLeft ∈ validMoves then some .cornerLeft
        else none
    match cornerChoice with
    | some seg => some seg
    | none =>
      if validMoves.length = 0 then none
      else validMoves.get? (fallbackIdx % validMoves.length)

theorem getValidMoves_eq_nil_or (currentPos : Cell) (currentDir : Direction)
    (visited : List Cell) (halfWidth halfHeight : ℤ) :
    getValidMoves currentPos currentDir visited halfWidth halfHeight = [] ∨
      getValidMoves currentPos currentDir visited halfWidth halfHeight =
        [.straight, .cornerLeft, .cornerRight] := by
  simp only [getValidMoves]
  split_ifs <;> simp

/-- C10: `get_valid_moves` returns either the empty list or the full list of
all three segment kinds, so whenever it is non-empty every kind lookup in
`choose_segment` succeeds: the choice never panics and always returns a
member of the valid list. -/
theorem get_valid_moves_all_or_nothing :
    (∀ (currentPos : Cell) (currentDir : Direction) (visited : List Cell)
        (halfWidth halfHeight : ℤ),
      getValidMoves currentPos currentDir visited halfWidth halfHeight = [] ∨
        getValidMoves currentPos currentDir visited halfWidth halfHeight =
          [.straight, .cornerLeft, .cornerRight]) ∧
    (∀ (currentPos : Cell) (currentDir : Direction) (visited : List Cell)
        (halfWidth halfHeight : ℤ) (roll cornerRoll targetDifficulty : ℚ) (fallbackIdx : ℕ),
      getValidMoves currentPos currentDir visited halfWidth halfHeight ≠ [] →
        ∃ seg,
          chooseSegment (getValidMoves currentPos currentDir visited halfWidth halfHeight)
              roll cornerRoll targetDifficulty fallbackIdx = some seg ∧
            seg ∈ getValidMoves currentPos currentDir visited halfWidth halfHeight) := by
  refine ⟨getValidMoves_eq_nil_or, ?_⟩
  intro currentPos currentDir visited halfWidth halfHeight roll cornerRoll targetDifficulty
    fallbackIdx hne
  rcases getValidMoves_eq_nil_or currentPos currentDir visited halfWidth halfHeight with h | h
  · exact absurd h hne
  · rw [h]
    by_cases h1 : roll < 8/10 - 6/10 * targetDifficulty
    · refine ⟨.straight, ?_, by simp⟩
      simp only [chooseSegment]
      rw [if_pos ⟨h1, by simp⟩]
    · by_cases h2 : cornerRoll < 1/2
      · refine ⟨.cornerLeft, ?_, by simp⟩
        simp only [chooseSegment]
        rw [if_neg (fun hc => h1 hc.1), if_pos h2,
          if_pos (show RoadSegmentType.cornerLeft ∈
            [RoadSegmentType.straight, RoadSegmentType.cornerLeft, RoadSegmentType.cornerRight]
            by simp)]
      · refine ⟨.cornerRight, ?_, by simp⟩
        simp only [chooseSegment]
        rw [if_neg (fun hc => h1 hc.1), if_neg h2,
          if_pos (show RoadSegmentType.cornerRight ∈
            [RoadSegmentType.straight, RoadSegmentType.cornerLeft, RoadSegmentType.cornerRight]
            by simp)]

/-- Witness for `get_valid_moves_all_or_nothing`: a concrete generator state
with a non-empty move list, at which the chooser returns a valid member. -/
theorem get_valid_moves_all_or_nothing_witness :
    getValidMoves ((0 : ℤ), (2 : ℤ)) Direction.up
        [((0 : ℤ), (2 : ℤ)), ((0 : ℤ), (1 : ℤ)), ((0 : ℤ), (0 : ℤ))] 5 5 ≠ [] ∧
      ∃ seg,
        chooseSegment
            (getValidMoves ((0 : ℤ), (2 : ℤ)) Direction.up
              [((0 : ℤ), (2 : ℤ)), ((0 : ℤ), (1 : ℤ)), ((0 : ℤ), (0 : ℤ))] 5 5)
            0 0 (1/2) 0 = some seg ∧
          seg ∈ getValidMoves ((0 : ℤ), (2 : ℤ)) Direction.up
            [((0 : ℤ), (2 : ℤ)), ((0 : ℤ), (1 : ℤ)), ((0 : ℤ), (0 : ℤ))] 5 5 :=
  ⟨by decide,
   get_valid_moves_all_or_nothing.2 ((0 : ℤ), (2 : ℤ)) Direction.up
     [((0 : ℤ), (2 : ℤ)), ((0 : ℤ), (1 : ℤ)), ((0 : ℤ), (0 : ℤ))] 5 5 0 0 (1/2) 0 (by decide)⟩

/-- The `while` loop of `try_generate_track` from `src/road/track_generator.rs`,
with explicit state and a fuel argument (the Rust loop terminates on its own
bounds; soundness below is proved for every fuel).  The RNG-driven
`choose_segment` call is abstracted into `choose`, an arbitrary stateful
chooser (the real chooser always returns a member of `validMoves`, which is a
special case).  `visited` models the `HashSet` (duplicate-free list). -/
def genLoop {σ : Type} (choose : σ → List RoadSegmentType → RoadSegmentType × σ)
    (cfg : TrackGeneratorConfig) (halfWidth halfHeight : ℤ) :
    ℕ → σ → List RoadSegmentType → List Cell → List (Cell × Direction) → Cell → Direction →
      ℕ → Option (List RoadSegmentType)
  | 0, _, _, _, _, _, _, _ => none
  | fuel + 1, rng, layout, visited, path, currentPos, currentDir, backtrackCount =>
    if layout.length < cfg.maxSegments ∧ backtrackCount < 1000 then
      match (if cfg.minSegments ≤ layout.length then canCloseLoop currentPos currentDir visited
             else none) with
      | some closingSegment => some (layout ++ [closingSegment])
      | none =>
        let validMoves := getValidMoves currentPos currentDir visited halfWidth halfHeight
        if validMoves = [] then
          if layout.length ≤ 2 then none
          else
            match (path.dropLast).getLast? with
            | some pd =>
              genLoop choose cfg halfWidth halfHeight fuel rng layout.dropLast
                (visited.erase currentPos) path.dropLast pd.1 pd.2 (backtrackCount + 1)
            | none =>
              genLoop choose cfg halfWidth halfHeight fuel rng layout.dropLast visited
                path.dropLast currentPos currentDir (backtrackCount + 1)
        else
          let chosen := choose rng validMoves
          let nextPos := getNextGridPosition currentPos currentDir
          let nextDir := getExitDirection currentDir chosen.1
          genLoop choose cfg halfWidth halfHeight fuel chosen.2 (layout ++ [chosen.1])
            (visited.insert nextPos) (path ++ [(nextPos, nextDir)]) nextPos nextDir backtrackCount
    else none

/-- `try_generate_track` from `src/road/track_generator.rs`: initial state
(origin visited, two forced straight segments) followed by the search loop.
Returns the generated layout (`finalize_track` passes `layout` through
unchanged, so the returned `GeneratedTrack.layout` is exactly this list). -/
def tryGenerateTrack {σ : Type} (choose : σ → List RoadSegmentType → RoadSegmentType × σ)
    (cfg : TrackGeneratorConfig) (halfWidth halfHeight : ℤ) (fuel : ℕ) (rng : σ) :
    Option (List RoadSegmentType) :=
  let pos0 : Cell := originCell
  let visited0 := List.insert pos0 ([] : List Cell)
  let path0 := [(pos0, Direction.up)]
  let pos1 := getNextGridPosition pos0 Direction.up
  let layout1 := [RoadSegmentType.straight]
  let visited1 := List.insert pos1 visited0
  let path1 := path0 ++ [(pos1, Direction.up)]
  let pos2 := getNextGridPosition pos1 Direction.up
  let layout2 := layout1 ++ [RoadSegmentType.straight]
  let visited2 := List.insert pos2 visited1
  let path2 := path1 ++ [(pos2, Direction.up)]
  genLoop choose cfg halfWidth halfHeight fuel rng layout2 visited2 path2 pos2 Direction.up 0

/-- A deterministic chooser that plays back a fixed script of segment kinds
(used only to exhibit a concrete successful generation run). -/
def scriptChoose :
    List RoadSegmentType → List RoadSegmentType → RoadSegmentType × List RoadSegmentType
  | [], _ => (RoadSegmentType.straight, [])
  | s :: rest, _ => (s, rest)

/-- Script of choices driving `tryGenerateTrack` around a 4 × 4 rectangle. -/
def demoScript : List RoadSegmentType :=
  [.cornerRight, .straight, .straight, .cornerRight, .straight, .straight,
   .cornerRight, .straight, .straight]

/-- A small valid generator configuration for the demonstration run. -/
def demoConfig : TrackGeneratorConfig := ⟨4, 20, 1/2, 42⟩

/-- The layout produced by the demonstration run. -/
def demoLayout : List RoadSegmentType :=
  [.straight, .straight, .cornerRight, .straight, .straight, .cornerRight,
   .straight, .straight, .cornerRight, .straight, .straight, .cornerRight]

example : tryGenerateTrack scriptChoose demoConfig 4 4 40 demoScript = some demoLayout := by
  decide

theorem cons_walkFrom_getLast? (L : List RoadSegmentType) :
    ∀ (pos : Cell) (dir : Direction),
      ((pos, dir) :: walkFrom pos dir L).getLast? = some (walkEnd pos dir L) := by
  induction L with
  | nil => intro pos dir; rfl
  | cons s rest ih =>
    intro pos dir
    rw [show walkFrom pos dir (s :: rest) =
        (getNextGridPosition pos dir, getExitDirection dir s) ::
          walkFrom (getNextGridPosition pos dir) (getExitDirection dir s) rest from by
      simp [walkFrom]]
    rw [List.getLast?_cons_cons]
    exact ih _ _

theorem walkFrom_append_singleton (L : List RoadSegmentType) :
    ∀ (pos : Cell) (dir : Direction) (s : RoadSegmentType),
      walkFrom pos dir (L ++ [s]) =
        walkFrom pos dir L ++
          [(getNextGridPosition (walkEnd pos dir L).1 (walkEnd pos dir L).2,
            getExitDirection (walkEnd pos dir L).2 s)] := by
  induction L with
  | nil => intro pos dir s; simp [walkFrom, walkEnd]
  | cons t rest ih =>
    intro pos dir s
    have h1 : walkFrom pos dir ((t :: rest) ++ [s]) =
        (getNextGridPosition pos dir, getExitDirection dir t) ::
          walkFrom (getNextGridPosition pos dir) (getExitDirection dir t) (rest ++ [s]) := by
      simp [walkFrom]
    have h2 : walkFrom pos dir (t :: rest) =
        (getNextGridPosition pos dir, getExitDirection dir t) ::
          walkFrom (getNextGridPosition pos dir) (getExitDirection dir t) rest := by
      simp [walkFrom]
    have h3 : walkEnd pos dir (t :: rest) =
        walkEnd (getNextGridPosition pos dir) (getExitDirection dir t) rest := rfl
    rw [h1, ih, h2, h3]
    simp

theorem walkFrom_dropLast (L : List RoadSegmentType) :
    ∀ (pos : Cell) (dir : Direction), L ≠ [] →
      walkFrom pos dir L.dropLast = (walkFrom pos dir L).dropLast := by
  induction L with
  | nil => intro _ _ h; exact absurd rfl h
  | cons t rest ih =>
    intro pos dir _
    cases rest with
    | nil => simp [walkFrom]
    | cons u us =>
      have h2 : walkFrom pos dir (t :: u :: us) =
          (getNextGridPosition pos dir, getExitDirection dir t) ::
            walkFrom (getNextGridPosition pos dir) (getExitDirection dir t) (u :: us) := by
        simp [walkFrom]
      have h3 : (t :: u :: us).dropLast = t :: (u :: us).dropLast := by
        simp
      rw [h3]
      have h4 : walkFrom pos dir (t :: (u :: us).dropLast) =
          (getNextGridPosition pos dir, getExitDirection dir t) ::
            walkFrom (getNextGridPosition pos dir) (getExitDirection dir t)
              ((u :: us).dropLast) := by
        simp [walkFrom]
      rw [h4, ih _ _ (by simp), h2,
        List.dropLast_cons_of_ne_nil (by simp [walkFrom])]

theorem canCloseLoop_some {pos : Cell} {dir : Direction} {visited : List Cell}
    {seg : RoadSegmentType} (h : canCloseLoop pos dir visited = some seg) :
    getNextGridPosition pos dir = originCell ∧ getExitDirection dir seg = Direction.up := by
  simp only [canCloseLoop] at h
  split_ifs at h with h1 h2
  all_goals
    have h1' : getNextGridPosition pos dir = originCell := by
      first
        | exact h1
        | (push_neg at h1; exact h1)
    refine ⟨h1', ?_⟩
    cases dir <;> cases seg <;> first | exact (by decide) | exact absurd h (by decide)

/-- Loop invariant of the generator search: the backtracking path is exactly
the walk of the accumulated layout, its cells are pairwise distinct, the
visited set is the set of path cells, and the first three path states are the
forced prefix through `(0,1)` and `(0,2)`. -/
def GenInv (layout : List RoadSegmentType) (visited : List Cell)
    (path : List (Cell × Direction)) (pos : Cell) (dir : Direction) : Prop :=
  path = walkStates layout ∧
    (path.map Prod.fst).Nodup ∧
    path.getLast? = some (pos, dir) ∧
    visited = (path.map Prod.fst).reverse ∧
    path.take 3 = [(originCell, Direction.up), (((0 : ℤ), (1 : ℤ)), Direction.up),
      (((0 : ℤ), (2 : ℤ)), Direction.up)]

theorem GenInv.path_length {layout visited path pos dir}
    (inv : GenInv layout visited path pos dir) : path.length = layout.length + 1 := by
  rw [inv.1]
  simp [walkStates, walkFrom_length]

theorem GenInv.three_le {layout visited path pos dir}
    (inv : GenInv layout visited path pos dir) : 3 ≤ path.length := by
  have := congrArg List.length inv.2.2.2.2
  simp only [List.length_take, List.length_cons, List.length_nil] at this
  omega

theorem genInv_next_not_visited {layout : List RoadSegmentType} {visited : List Cell}
    {path : List (Cell × Direction)} {pos : Cell} {dir : Direction} {hw hh : ℤ}
    (inv : GenInv layout visited path pos dir)
    (hmoves : getValidMoves pos dir visited hw hh ≠ []) :
    getNextGridPosition pos dir ∉ visited := by
  obtain ⟨hpath, hnd, hlast, hvis, htake⟩ := inv
  intro hmem
  simp only [getValidMoves] at hmoves
  split_ifs at hmoves with h1 h2 h3
  · exact hmoves rfl
  · exact hmoves rfl
  · exact hmoves rfl
  · push_neg at h2
    have hnext : getNextGridPosition pos dir = originCell := h2 hmem
    set cells := path.map Prod.fst with hcells
    have htake' : cells.take 3 = [originCell, ((0 : ℤ), (1 : ℤ)), ((0 : ℤ), (2 : ℤ))] := by
      rw [hcells, ← List.map_take, htake]
      rfl
    have hsplit : cells = [originCell, ((0 : ℤ), (1 : ℤ)), ((0 : ℤ), (2 : ℤ))] ++ cells.drop 3 := by
      conv_lhs => rw [← List.take_append_drop 3 cells]
      rw [htake']
    have h01mem : (((0 : ℤ), (1 : ℤ)) : Cell) ∈ visited := by
      rw [hvis, List.mem_reverse]
      rw [hsplit]
      simp
    have hlastcells : cells.getLast? = some pos := by
      obtain ⟨ys, hys⟩ := List.getLast?_eq_some_iff.mp hlast
      rw [hcells, hys,
        show (ys ++ [(pos, dir)]).map Prod.fst = ys.map Prod.fst ++ [pos] from by simp,
        List.getLast?_concat]
    have hposne : pos ≠ (((0 : ℤ), (1 : ℤ)) : Cell) := by
      intro hpos
      rcases hrest : cells.drop 3 with _ | ⟨r, rs⟩
      · rw [hsplit, hrest, List.append_nil, List.getLast?_cons_cons,
          List.getLast?_cons_cons] at hlastcells
        have h22 : (((0 : ℤ), (2 : ℤ)) : Cell) = pos := by simpa using hlastcells
        rw [hpos] at h22
        exact absurd h22 (by decide)
      · have hnd' := hnd
        rw [hsplit, hrest] at hnd' hlastcells
        simp only [List.cons_append, List.nil_append] at hnd' hlastcells
        rw [List.getLast?_cons_cons, List.getLast?_cons_cons,
          List.getLast?_cons_cons] at hlastcells
        have hposmem := List.mem_of_getLast?_eq_some hlastcells
        have hA := (List.nodup_cons.mp hnd').2
        have hB := (List.nodup_cons.mp hA).1
        exact hB (hpos ▸ (List.mem_cons_of_mem _ hposmem))
    have hadj : hasAdjacentVisited (getNextGridPosition pos dir) pos visited = true := by
      rw [hnext]
      simp only [hasAdjacentVisited, List.any_eq_true]
      refine ⟨((0 : ℤ), (1 : ℤ)), by decide, ?_⟩
      rw [decide_eq_true_eq]
      exact ⟨hposne.symm, by decide, h01mem⟩
    exact h3 hadj

theorem genInv_push {layout : List RoadSegmentType} {visited : List Cell}
    {path : List (Cell × Direction)} {pos : Cell} {dir : Direction} {hw hh : ℤ}
    (inv : GenInv layout visited path pos dir)
    (hmv : getValidMoves pos dir visited hw hh ≠ []) (s : RoadSegmentType) :
    GenInv (layout ++ [s]) (visited.insert (getNextGridPosition pos dir))
      (path ++ [(getNextGridPosition pos dir, getExitDirection dir s)])
      (getNextGridPosition pos dir) (getExitDirection dir s) := by
  have hnotv := genInv_next_not_visited inv hmv
  have h3le := inv.three_le
  obtain ⟨hpath, hnd, hlast, hvis, htake⟩ := inv
  have hnotc : getNextGridPosition pos dir ∉ path.map Prod.fst := by
    rw [hvis, List.mem_reverse] at hnotv
    exact hnotv
  have hwend : walkEnd originCell Direction.up layout = (pos, dir) := by
    have h := cons_walkFrom_getLast? layout originCell Direction.up
    rw [hpath] at hlast
    unfold walkStates at hlast
    exact Option.some.inj (h.symm.trans hlast)
  refine ⟨?_, ?_, ?_, ?_, ?_⟩
  · rw [hpath]
    unfold walkStates
    rw [walkFrom_append_singleton, hwend]
    simp
  · rw [List.map_append]
    simp only [List.map_cons, List.map_nil]
    rw [List.nodup_append]
    exact ⟨hnd, List.nodup_singleton _,
      fun a ha hb => hnotc ((List.mem_singleton.mp hb) ▸ ha)⟩
  · rw [List.getLast?_concat]
  · rw [List.insert_of_not_mem hnotv, hvis, List.map_append]
    simp
  · rw [List.take_append_of_le_length (by omega), htake]

theorem genInv_backtrack {layout : List RoadSegmentType} {visited : List Cell}
    {path : List (Cell × Direction)} {pos : Cell} {dir : Direction} {pd : Cell × Direction}
    (inv : GenInv layout visited path pos dir)
    (hlen3 : ¬ layout.length ≤ 2)
    (hpd : path.dropLast.getLast? = some pd) :
    GenInv layout.dropLast (visited.erase pos) path.dropLast pd.1 pd.2 := by
  have hplen := inv.path_length
  obtain ⟨hpath, hnd, hlast, hvis, htake⟩ := inv
  have hlnil : layout ≠ [] := by
    intro h
    rw [h] at hlen3
    exact hlen3 (by simp)
  have hwne : walkFrom originCell Direction.up layout ≠ [] := by
    apply List.ne_nil_of_length_pos
    rw [walkFrom_length]
    have := List.length_pos.mpr hlnil
    omega
  refine ⟨?_, ?_, ?_, ?_, ?_⟩
  · rw [hpath]
    unfold walkStates
    rw [List.dropLast_cons_of_ne_nil hwne, walkFrom_dropLast layout originCell Direction.up hlnil]
  · rw [List.map_dropLast]
    exact hnd.sublist (List.dropLast_sublist _)
  · exact hpd
  · obtain ⟨ys, hys⟩ := List.getLast?_eq_some_iff.mp hlast
    have hcells : path.map Prod.fst = ys.map Prod.fst ++ [pos] := by
      rw [hys]
      simp
    have hdlcells : path.dropLast = ys := by
      rw [hys]
      exact List.dropLast_concat
    rw [hvis, hcells, hdlcells, List.reverse_append]
    simp only [List.reverse_cons, List.reverse_nil, List.nil_append, List.singleton_append]
    rw [List.erase_cons_head]
  · rw [List.dropLast_eq_take, List.take_take,
      show min 3 (path.length - 1) = 3 from by omega, htake]

theorem GenInv.walkEnd_eq {layout : List RoadSegmentType} {visited : List Cell}
    {path : List (Cell × Direction)} {pos : Cell} {dir : Direction}
    (inv : GenInv layout visited path pos dir) :
    walkEnd originCell Direction.up layout = (pos, dir) := by
  have h := cons_walkFrom_getLast? layout originCell Direction.up
  have hlast := inv.2.2.1
  rw [inv.1] at hlast
  unfold walkStates at hlast
  exact Option.some.inj (h.symm.trans hlast)

theorem genLoop_sound {σ : Type} (choose : σ → List RoadSegmentType → RoadSegmentType × σ)
    (cfg : TrackGeneratorConfig) (hw hh : ℤ) :
    ∀ (fuel : ℕ) (rng : σ) (layout : List RoadSegmentType) (visited : List Cell)
      (path : List (Cell × Direction)) (pos : Cell) (dir : Direction) (bt : ℕ)
      (L : List RoadSegmentType),
      GenInv layout visited path pos dir →
      genLoop choose cfg hw hh fuel rng layout visited path pos dir bt = some L →
      acceptsSpec L ∧ cfg.minSegments ≤ L.length ∧ L.length ≤ cfg.maxSegments := by
  intro fuel
  induction fuel with
  | zero =>
    intro rng layout visited path pos dir bt L _ hgen
    simp [genLoop] at hgen
  | succ fuel ih =>
    intro rng layout visited path pos dir bt L hinv hgen
    rw [genLoop] at hgen
    by_cases hcond : layout.length < cfg.maxSegments ∧ bt < 1000
    case neg =>
      rw [if_neg hcond] at hgen
      exact Option.noConfusion hgen
    rw [if_pos hcond] at hgen
    split at hgen
    next c heq =>
      by_cases hmin : cfg.minSegments ≤ layout.length
      · rw [if_pos hmin] at heq
        obtain ⟨hnext, hexit⟩ := canCloseLoop_some heq
        obtain rfl : layout ++ [c] = L := Option.some.inj hgen
        have hwend := hinv.walkEnd_eq
        obtain ⟨hpath, hnd, hlast, hvis, htake⟩ := hinv
        have hws : walkStates (layout ++ [c]) = path ++ [(originCell, Direction.up)] := by
          have h1 : walkStates (layout ++ [c]) =
              (originCell, Direction.up) :: walkFrom originCell Direction.up (layout ++ [c]) :=
            rfl
          rw [h1, walkFrom_append_singleton, hwend, hpath]
          unfold walkStates
          simp only [List.cons_append]
          rw [hnext, hexit]
        refine ⟨⟨by simp, ?_, ?_⟩, ?_, ?_⟩
        · rw [hws, List.map_append]
          simp only [List.map_cons, List.map_nil]
          rw [List.dropLast_concat]
          exact hnd
        · rw [hws, List.getLast?_concat]
        · simp only [List.length_append, List.length_cons, List.length_nil]
          omega
        · simp only [List.length_append, List.length_cons, List.length_nil]
          omega
      · rw [if_neg hmin] at heq
        exact Option.noConfusion heq
    next heq =>
      dsimp only at hgen
      by_cases hmv : getValidMoves pos dir visited hw hh = []
      · rw [if_pos hmv] at hgen
        by_cases hl2 : layout.length ≤ 2
        · rw [if_pos hl2] at hgen
          exact Option.noConfusion hgen
        · rw [if_neg hl2] at hgen
          split at hgen
          next pd heq2 =>
            exact ih _ _ _ _ _ _ _ _ (genInv_backtrack hinv hl2 heq2) hgen
          next heq2 =>
            exfalso
            have h3le := hinv.three_le
            have hdl : path.dropLast = [] := List.getLast?_eq_none_iff.mp heq2
            have := congrArg List.length hdl
            simp only [List.length_dropLast, List.length_nil] at this
            omega
      · rw [if_neg hmv] at hgen
        exact ih _ _ _ _ _ _ _ _
          (genInv_push hinv hmv (choose rng (getValidMoves pos dir visited hw hh)).1) hgen

/-- C1: whenever `try_generate_track` succeeds — for any behaviour of the
segment chooser, which subsumes every RNG seed — walking the returned layout
from the grid origin heading Up visits pairwise-distinct grid cells, arrives
back at the origin exactly on the final segment with exit direction Up, and
the number of segments lies in `[min_segments, max_segments]`. -/
theorem try_generate_track_sound {σ : Type}
    (choose : σ → List RoadSegmentType → RoadSegmentType × σ)
    (cfg : TrackGeneratorConfig) (hw hh : ℤ) (fuel : ℕ) (rng : σ)
    (L : List RoadSegmentType)
    (hgen : tryGenerateTrack choose cfg hw hh fuel rng = some L) :
    acceptsSpec L ∧ cfg.minSegments ≤ L.length ∧ L.length ≤ cfg.maxSegments := by
  simp only [tryGenerateTrack] at hgen
  refine genLoop_sound choose cfg hw hh fuel rng _ _ _ _ _ 0 L ?_ hgen
  unfold GenInv
  refine ⟨?_, ?_, ?_, ?_, ?_⟩ <;> decide

/-- Witness for `try_generate_track_sound`: the scripted run produces
`demoLayout`, for which the guarantees hold. -/
theorem try_generate_track_sound_witness :
    tryGenerateTrack scriptChoose demoConfig 4 4 40 demoScript = some demoLayout ∧
      (acceptsSpec demoLayout ∧ demoConfig.minSegments ≤ demoLayout.length ∧
        demoLayout.length ≤ demoConfig.maxSegments) :=
  ⟨by decide,
   try_generate_track_sound scriptChoose demoConfig 4 4 40 demoScript demoLayout (by decide)⟩

/-- `ROAD_WIDTH` from `src/road/constants.rs`, as the rational `50` for the
comparison-only HUD arithmetic. -/
def ROAD_WIDTH_Q : ℚ := 50

/-- `LINE_X_TOLERANCE` from `src/hud/helpers.rs` (`ROAD_WIDTH / 2.0`). -/
def LINE_X_TOLERANCE : ℚ := ROAD_WIDTH_Q / 2

/-- `RaceStatus` from `src/hud/components.rs`. -/
inductive RaceStatus : Type
  | waitingToStart
  | racing
  | finished
deriving DecidableEq, Repr

/-- `RaceState` from `src/hud/components.rs`.  The Bevy `Stopwatch` is
modelled by its elapsed seconds and paused flag; `f32` coordinates and times
become `ℚ`. -/
structure RaceState : Type where
  elapsed : ℚ
  paused : Bool
  status : RaceStatus
  finalTime : Option ℚ
  carLastY : ℚ
  isOnRoad : Bool
deriving DecidableEq, Repr

/-- `RaceState::start_race`: set status racing, reset and unpause the
stopwatch. -/
def RaceState.startRace (rs : RaceState) : RaceState :=
  { rs with status := .racing, elapsed := 0, paused := false }

/-- `RaceState::finish_race`: set status finished, pause the stopwatch, record
the elapsed time as `final_time`. -/
def RaceState.finishRace (rs : RaceState) : RaceState :=
  { rs with status := .finished, paused := true, finalTime := some rs.elapsed }

/-- `RaceState::set_previous_car_y`. -/
def RaceState.setPreviousCarY (rs : RaceState) (y : ℚ) : RaceState :=
  { rs with carLastY := y }

/-- `has_crossed_line` from `src/hud/helpers.rs`. -/
def hasCrossedLine (carY lastY lineY : ℚ) (direction : Direction) : Bool :=
  match direction with
  | .up => decide (lastY ≤ lineY) && decide (carY > lineY)
  | .down => decide (lastY ≥ lineY) && decide (carY < lineY)
  | .left => false
  | .right => false

/-- `is_within_line_x_bounds` from `src/hud/helpers.rs`. -/
def isWithinLineXBounds (carX lineX : ℚ) : Bool :=
  decide (|carX - lineX| < LINE_X_TOLERANCE)

/-- `has_crossed_line_at` from `src/hud/systems.rs`. -/
def hasCrossedLineAt (carPos : ℚ × ℚ) (carLastY : ℚ) (linePos : ℚ × ℚ)
    (direction : Direction) : Bool :=
  isWithinLineXBounds carPos.1 linePos.1 &&
    hasCrossedLine carPos.2 carLastY linePos.2 direction

/-- `check_start_line_crossing` from `src/hud/systems.rs`, as a pure state
transformer on `RaceState` for one tick. -/
def checkStartLineCrossing (carPos startPos : ℚ × ℚ) (startDir : Direction)
    (rs : RaceState) : RaceState :=
  if rs.status ≠ RaceStatus.waitingToStart then rs
  else
    let rs1 :=
      if hasCrossedLineAt carPos rs.carLastY startPos startDir then rs.startRace else rs
    rs1.setPreviousCarY carPos.2

/-- `check_finish_line_crossing` from `src/hud/systems.rs`, as a pure state
transformer on `RaceState` for one tick; `allVisited` is the emptiness of the
unvisited-segment query. -/
def checkFinishLineCrossing (carPos finishPos : ℚ × ℚ) (finishDir : Direction)
    (allVisited : Bool) (rs : RaceState) : RaceState :=
  if rs.status ≠ RaceStatus.racing then rs
  else
    let rs1 :=
      if hasCrossedLineAt carPos rs.carLastY finishPos finishDir then
        (if allVisited then rs.finishRace else rs)
      else rs
    rs1.setPreviousCarY carPos.2

/-- C5: line-crossing detection is true exactly when the directional
frame-to-frame condition holds (Up: previous Y ≤ line Y < current Y; Down:
mirrored) and the horizontal proximity `|car.x − line.x| < ROAD_WIDTH / 2` is
satisfied. -/
theorem has_crossed_line_at_iff (carPos : ℚ × ℚ) (carLastY : ℚ) (linePos : ℚ × ℚ) :
    (hasCrossedLineAt carPos carLastY linePos Direction.up = true ↔
      (|carPos.1 - linePos.1| < ROAD_WIDTH_Q / 2 ∧
        carLastY ≤ linePos.2 ∧ linePos.2 < carPos.2)) ∧
    (hasCrossedLineAt carPos carLastY linePos Direction.down = true ↔
      (|carPos.1 - linePos.1| < ROAD_WIDTH_Q / 2 ∧
        carLastY ≥ linePos.2 ∧ linePos.2 > carPos.2)) := by
  constructor <;>
    simp [hasCrossedLineAt, hasCrossedLine, isWithinLineXBounds, LINE_X_TOLERANCE,
      and_assoc]

/-- C3: while racing, the status moves to `Finished` on a tick exactly when
the car crosses the finish line in the required direction and every segment
is visited; a crossing with a segment unvisited leaves the status `Racing`;
and on the transition the stopwatch is paused and `final_time` records the
elapsed time. -/
theorem finish_line_transition (carPos finishPos : ℚ × ℚ) (finishDir : Direction)
    (allVisited : Bool) (rs : RaceState) (hracing : rs.status = RaceStatus.racing) :
    ((checkFinishLineCrossing carPos finishPos finishDir allVisited rs).status =
        RaceStatus.finished ↔
      (hasCrossedLineAt carPos rs.carLastY finishPos finishDir = true ∧ allVisited = true)) ∧
    (allVisited = false →
      (checkFinishLineCrossing carPos finishPos finishDir allVisited rs).status =
        RaceStatus.racing) ∧
    ((checkFinishLineCrossing carPos finishPos finishDir allVisited rs).status =
        RaceStatus.finished →
      (checkFinishLineCrossing carPos finishPos finishDir allVisited rs).paused = true ∧
        (checkFinishLineCrossing carPos finishPos finishDir allVisited rs).finalTime =
          some rs.elapsed) := by
  unfold checkFinishLineCrossing
  rw [if_neg (by rw [hracing]; simp)]
  by_cases hcross : hasCrossedLineAt carPos rs.carLastY finishPos finishDir = true
  · rw [if_pos hcross]
    cases allVisited
    · simp [RaceState.setPreviousCarY, hracing, hcross]
    · simp [RaceState.setPreviousCarY, RaceState.finishRace, hcross]
  · rw [if_neg hcross]
    simp [RaceState.setPreviousCarY, hracing, hcross]

/-- Witness for `finish_line_transition`: a racing state in which the car
crosses the finish line with all segments visited. -/
theorem finish_line_transition_witness :
    (RaceState.mk 5 false RaceStatus.racing none (-1) true).status = RaceStatus.racing ∧
      (((checkFinishLineCrossing ((0 : ℚ), (1 : ℚ)) ((0 : ℚ), (0 : ℚ)) Direction.up true
            (RaceState.mk 5 false RaceStatus.racing none (-1) true)).status =
          RaceStatus.finished ↔
        (hasCrossedLineAt ((0 : ℚ), (1 : ℚ))
              (RaceState.mk 5 false RaceStatus.racing none (-1) true).carLastY
              ((0 : ℚ), (0 : ℚ)) Direction.up = true ∧ true = true)) ∧
      (true = false →
        (checkFinishLineCrossing ((0 : ℚ), (1 : ℚ)) ((0 : ℚ), (0 : ℚ)) Direction.up true
            (RaceState.mk 5 false RaceStatus.racing none (-1) true)).status =
          RaceStatus.racing) ∧
      ((checkFinishLineCrossing ((0 : ℚ), (1 : ℚ)) ((0 : ℚ), (0 : ℚ)) Direction.up true
            (RaceState.mk 5 false RaceStatus.racing none (-1) true)).status =
          RaceStatus.finished →
        (checkFinishLineCrossing ((0 : ℚ), (1 : ℚ)) ((0 : ℚ), (0 : ℚ)) Direction.up true
              (RaceState.mk 5 false RaceStatus.racing none (-1) true)).paused = true ∧
          (checkFinishLineCrossing ((0 : ℚ), (1 : ℚ)) ((0 : ℚ), (0 : ℚ)) Direction.up true
                (RaceState.mk 5 false RaceStatus.racing none (-1) true)).finalTime =
            some (RaceState.mk 5 false RaceStatus.racing none (-1) true).elapsed)) :=
  ⟨rfl,
   finish_line_transition ((0 : ℚ), (1 : ℚ)) ((0 : ℚ), (0 : ℚ)) Direction.up true
     (RaceState.mk 5 false RaceStatus.racing none (-1) true) rfl⟩

/-- C9 (amended): running both crossing systems in a tick (in either order)
sets `car_last_y` to the car's current Y when the status is `WaitingToStart`
or `Racing`, and leaves `car_last_y` unchanged when the status is `Finished`
(both systems return before their update in that state). -/
theorem car_last_y_update_characterization
    (carPos startPos finishPos : ℚ × ℚ) (startDir finishDir : Direction)
    (allVisited : Bool) (rs : RaceState) :
    (checkFinishLineCrossing carPos finishPos finishDir allVisited
        (checkStartLineCrossing carPos startPos startDir rs)).carLastY =
      (if rs.status = RaceStatus.finished then rs.carLastY else carPos.2) ∧
    (checkStartLineCrossing carPos startPos startDir
        (checkFinishLineCrossing carPos finishPos finishDir allVisited rs)).carLastY =
      (if rs.status = RaceStatus.finished then rs.carLastY else carPos.2) := by
  have hset : ∀ (x : RaceState) (y : ℚ), (x.setPreviousCarY y).carLastY = y := fun _ _ => rfl
  have hguardS : ∀ (x : RaceState), x.status ≠ RaceStatus.waitingToStart →
      checkStartLineCrossing carPos startPos startDir x = x := by
    intro x hx
    unfold checkStartLineCrossing
    rw [if_pos hx]
  have hguardF : ∀ (x : RaceState), x.status ≠ RaceStatus.racing →
      checkFinishLineCrossing carPos finishPos finishDir allVisited x = x := by
    intro x hx
    unfold checkFinishLineCrossing
    rw [if_pos hx]
  have hrunS : ∀ (x : RaceState), x.status = RaceStatus.waitingToStart →
      (checkStartLineCrossing carPos startPos startDir x).carLastY = carPos.2 ∧
        ((checkStartLineCrossing carPos startPos startDir x).status = RaceStatus.waitingToStart ∨
          (checkStartLineCrossing carPos startPos startDir x).status = RaceStatus.racing) := by
    intro x hx
    unfold checkStartLineCrossing
    rw [if_neg (by rw [hx]; simp)]
    refine ⟨hset _ _, ?_⟩
    split_ifs with h
    · right; rfl
    · left; exact hx
  have hrunF : ∀ (x : RaceState), x.status = RaceStatus.racing →
      (checkFinishLineCrossing carPos finishPos finishDir allVisited x).carLastY = carPos.2 := by
    intro x hx
    unfold checkFinishLineCrossing
    rw [if_neg (by rw [hx]; simp)]
    exact hset _ _
  cases hst : rs.status
  case waitingToStart =>
    rw [if_neg (show RaceStatus.waitingToStart ≠ RaceStatus.finished by decide)]
    constructor
    · obtain ⟨hy, hor⟩ := hrunS rs hst
      rcases hor with h | h
      · rw [hguardF _ (by rw [h]; simp)]
        exact hy
      · exact hrunF _ h
    · rw [hguardF rs (by rw [hst]; simp)]
      exact (hrunS rs hst).1
  case racing =>
    rw [if_neg (show RaceStatus.racing ≠ RaceStatus.finished by decide)]
    constructor
    · rw [hguardS rs (by rw [hst]; simp)]
      exact hrunF rs hst
    · have hy := hrunF rs hst
      by_cases hfin : (checkFinishLineCrossing carPos finishPos finishDir allVisited
          rs).status = RaceStatus.waitingToStart
      · obtain ⟨hy2, -⟩ := hrunS _ hfin
        exact hy2
      · rw [hguardS _ hfin]
        exact hy
  case finished =>
    rw [if_pos rfl]
    rw [hguardS rs (by rw [hst]; simp), hguardF rs (by rw [hst]; simp),
      hguardS rs (by rw [hst]; simp)]
    exact ⟨rfl, rfl⟩

/-- C9 counterexample: in status `Finished` neither crossing system updates
`car_last_y`: with stored previous Y `0` and current car Y `7`, after a tick
running both systems the stored value is still `0`, so it is not updated to
the car's current Y on every tick in every status. -/
theorem c9_claim_counterexample :
    (checkFinishLineCrossing ((0 : ℚ), (7 : ℚ)) ((0 : ℚ), (0 : ℚ)) Direction.up true
        (checkStartLineCrossing ((0 : ℚ), (7 : ℚ)) ((0 : ℚ), (0 : ℚ)) Direction.up
          (RaceState.mk 5 true RaceStatus.finished (some 5) 0 true))).carLastY = 0 ∧
      (0 : ℚ) ≠ 7 := by
  constructor
  · decide
  · decide

/-- `ROAD_WIDTH` from `src/road/constants.rs`, over `ℝ` for the geometry
kernel (the `f32` arithmetic is idealised as real arithmetic). -/
def ROAD_WIDTH : ℝ := 50

/-- `ROAD_SEGMENT_LENGTH` from `src/road/constants.rs` (`= ROAD_WIDTH`). -/
def ROAD_SEGMENT_LENGTH : ℝ := ROAD_WIDTH

/-- `CAR_WIDTH` from `src/car/constants.rs`. -/
def CAR_WIDTH : ℝ := 10

/-- `CAR_HEIGHT` from `src/car/constants.rs`. -/
def CAR_HEIGHT : ℝ := 18

/-- `CAR_FRICTION` from `src/car/constants.rs`. -/
def CAR_FRICTION : ℝ := 400

/-- `Vec2::length`. -/
noncomputable def vecLen (v : ℝ × ℝ) : ℝ := Real.sqrt (v.1 ^ 2 + v.2 ^ 2)

/-- `f32::atan2` idealised over `ℝ`: the argument of `x + y·i`, with range
`(−π, π]` exactly as `atan2`. -/
noncomputable def atan2 (y x : ℝ) : ℝ := Complex.arg (Complex.ofReal x + Complex.ofReal y * Complex.I)

/-- `is_point_in_straight` from `src/road/helpers.rs`. -/
def isPointInStraight (p : ℝ × ℝ) : Prop :=
  -(ROAD_WIDTH / 2) ≤ p.1 ∧ p.1 ≤ ROAD_WIDTH / 2 ∧
    -(ROAD_SEGMENT_LENGTH / 2) ≤ p.2 ∧ p.2 ≤ ROAD_SEGMENT_LENGTH / 2

/-- `is_point_in_corner_right` from `src/road/helpers.rs` (the early
`distance > ROAD_WIDTH → false` return becomes the conjunct
`distance ≤ ROAD_WIDTH`). -/
def isPointInCornerRight (p : ℝ × ℝ) : Prop :=
  vecLen p ≤ ROAD_WIDTH ∧
    (Real.pi / 4 ≤ atan2 p.2 p.1 ∧ atan2 p.2 p.1 ≤ Real.pi / 4 + Real.pi / 2)

/-- `is_point_in_corner_left` from `src/road/helpers.rs`. -/
def isPointInCornerLeft (p : ℝ × ℝ) : Prop :=
  vecLen p ≤ ROAD_WIDTH ∧
    (Real.pi / 2 - Real.pi / 4 ≤ atan2 p.2 p.1 ∧ atan2 p.2 p.1 ≤ Real.pi - Real.pi / 4)

/-- Modelled from the spec: `is_point_in_segment` is imported by
`src/road/systems.rs` from `road::helpers` but its definition is not among
the provided sources; per spec §4.1 it dispatches on the segment kind to the
straight-rectangle test and the two corner circular-sector tests. -/
def isPointInSegment (p : ℝ × ℝ) (kind : RoadSegmentType) : Prop :=
  match kind with
  | .straight => isPointInStraight p
  | .cornerLeft => isPointInCornerLeft p
  | .cornerRight => isPointInCornerRight p

/-- A rigid 2D transform (translation + rotation), the restriction of the
Bevy `Transform` actually used for road segments and the car (unit scale,
rotation about Z, z-coordinate dropped). -/
structure Transform2 : Type where
  pos : ℝ × ℝ
  angle : ℝ

/-- Rotation of a 2D vector by `θ`. -/
noncomputable def rot2 (θ : ℝ) (p : ℝ × ℝ) : ℝ × ℝ :=
  (Real.cos θ * p.1 - Real.sin θ * p.2, Real.sin θ * p.1 + Real.cos θ * p.2)

/-- `Transform::transform_point` for a rigid 2D transform. -/
noncomputable def transformPoint (t : Transform2) (p : ℝ × ℝ) : ℝ × ℝ :=
  (t.pos.1 + (rot2 t.angle p).1, t.pos.2 + (rot2 t.angle p).2)

/-- `world_to_local_2d` from `src/collision/helpers.rs`: the inverse of the
rigid transform's affine map, dropping z. -/
noncomputable def worldToLocal2 (t : Transform2) (p : ℝ × ℝ) : ℝ × ℝ :=
  rot2 (-t.angle) (p.1 - t.pos.1, p.2 - t.pos.2)

/-- `get_car_corners` from `src/car/helpers.rs`: the four local corners
`(±CAR_WIDTH/2, ±CAR_HEIGHT/2)` mapped to world space, in source order
front-left, front-right, back-right, back-left. -/
noncomputable def getCarCorners (t : Transform2) : List (ℝ × ℝ) :=
  [transformPoint t (-(CAR_WIDTH / 2), CAR_HEIGHT / 2),
   transformPoint t (CAR_WIDTH / 2, CAR_HEIGHT / 2),
   transformPoint t (CAR_WIDTH / 2, -(CAR_HEIGHT / 2)),
   transformPoint t (-(CAR_WIDTH / 2), -(CAR_HEIGHT / 2))]

/-- Inner loop of `check_car_on_road` over the road query: the corner is
on-road once some segment's local footprint contains it (the `break`). -/
def cornerOnRoad (corner : ℝ × ℝ) : List (Transform2 × RoadSegmentType) → Prop
  | [] => False
  | r :: rest => isPointInSegment (worldToLocal2 r.1 corner) r.2 ∨ cornerOnRoad corner rest

/-- Outer loop of `check_car_on_road` over the car corners: early `return
false` on the first corner that is on no segment. -/
def carOnRoadGo : List (ℝ × ℝ) → List (Transform2 × RoadSegmentType) → Prop
  | [], _ => True
  | c :: cs, roads => cornerOnRoad c roads ∧ carOnRoadGo cs roads

/-- `check_car_on_road` from `src/road/systems.rs`. -/
def checkCarOnRoad (carT : Transform2) (roads : List (Transform2 × RoadSegmentType)) : Prop :=
  carOnRoadGo (getCarCorners carT) roads

theorem cornerOnRoad_iff (corner : ℝ × ℝ) :
    ∀ roads : List (Transform2 × RoadSegmentType),
      cornerOnRoad corner roads ↔
        ∃ r ∈ roads, isPointInSegment (worldToLocal2 r.1 corner) r.2 := by
  intro roads
  induction roads with
  | nil => simp [cornerOnRoad]
  | cons r rest ih => simp [cornerOnRoad, ih]

theorem carOnRoadGo_iff (roads : List (Transform2 × RoadSegmentType)) :
    ∀ cs : List (ℝ × ℝ), carOnRoadGo cs roads ↔ ∀ c ∈ cs, cornerOnRoad c roads := by
  intro cs
  induction cs with
  | nil => simp [carOnRoadGo]
  | cons c rest ih => simp [carOnRoadGo, ih]

/-- C4: `check_car_on_road` holds exactly when each of the car's four
world-space corners lies, after the world-to-local transform, inside at least
one road segment's local footprint; equivalently, one corner contained in no
segment makes it false. -/
theorem check_car_on_road_iff (carT : Transform2)
    (roads : List (Transform2 × RoadSegmentType)) :
    checkCarOnRoad carT roads ↔
      ∀ corner ∈ getCarCorners carT, ∃ r ∈ roads,
        isPointInSegment (worldToLocal2 r.1 corner) r.2 := by
  unfold checkCarOnRoad
  rw [carOnRoadGo_iff]
  exact forall₂_congr fun c _ => cornerOnRoad_iff c roads

/-- `apply_rolling_friction` from `src/car/systems.rs`: early return when the
speed is not positive (the normalization guard), zeroing when the speed is
below the friction impulse, otherwise componentwise subtraction of
`normalize(v) * friction_magnitude`. -/
noncomputable def applyRollingFriction (v : ℝ × ℝ) (dt : ℝ) : ℝ × ℝ :=
  let speed := vecLen v
  if speed ≤ 0 then v
  else
    let frictionMagnitude := CAR_FRICTION * dt
    if speed < frictionMagnitude then (0, 0)
    else (v.1 - v.1 / speed * frictionMagnitude, v.2 - v.2 / speed * frictionMagnitude)

theorem applyRollingFriction_eq (v : ℝ × ℝ) (dt : ℝ) :
    applyRollingFriction v dt =
      if vecLen v ≤ 0 then v
      else if vecLen v < CAR_FRICTION * dt then (0, 0)
      else (v.1 - v.1 / vecLen v * (CAR_FRICTION * dt),
        v.2 - v.2 / vecLen v * (CAR_FRICTION * dt)) := rfl

/-- C8: for `dt ≥ 0` the rolling-friction update scales the velocity by a
non-negative factor (same direction, never reversed), the resulting speed is
`max(0, |v| − CAR_FRICTION·dt)`, and the zero vector maps to exactly zero (the
normalization is guarded, so the function is total). -/
theorem apply_rolling_friction_spec (v : ℝ × ℝ) (dt : ℝ) (hdt : 0 ≤ dt) :
    vecLen (applyRollingFriction v dt) = max 0 (vecLen v - CAR_FRICTION * dt) ∧
    (∃ c : ℝ, 0 ≤ c ∧ applyRollingFriction v dt = (c * v.1, c * v.2)) ∧
    applyRollingFriction ((0 : ℝ), (0 : ℝ)) dt = ((0 : ℝ), (0 : ℝ)) := by
  have hf : (0 : ℝ) ≤ CAR_FRICTION * dt := mul_nonneg (by unfold CAR_FRICTION; norm_num) hdt
  have hlen00 : vecLen ((0 : ℝ), (0 : ℝ)) = 0 := by
    unfold vecLen
    norm_num
  have hzero : applyRollingFriction ((0 : ℝ), (0 : ℝ)) dt = ((0 : ℝ), (0 : ℝ)) := by
    rw [applyRollingFriction_eq, if_pos (le_of_eq hlen00)]
  by_cases h1 : vecLen v ≤ 0
  · have hs0 : vecLen v = 0 := le_antisymm h1 (Real.sqrt_nonneg _)
    have hsum : v.1 ^ 2 + v.2 ^ 2 = 0 := by
      have hle := Real.sqrt_eq_zero'.mp hs0
      nlinarith [sq_nonneg v.1, sq_nonneg v.2]
    have hv1 : v.1 = 0 := by nlinarith [sq_nonneg v.1, sq_nonneg v.2]
    have hv2 : v.2 = 0 := by nlinarith [sq_nonneg v.1, sq_nonneg v.2]
    refine ⟨?_, ⟨0, le_refl 0, ?_⟩, hzero⟩
    · rw [applyRollingFriction_eq, if_pos h1, hs0, max_eq_left (by linarith : (0 : ℝ) - CAR_FRICTION * dt ≤ 0)]
    · rw [applyRollingFriction_eq, if_pos h1]
      rw [show v = ((0 : ℝ), (0 : ℝ)) from Prod.ext hv1 hv2]
      norm_num
  · push_neg at h1
    by_cases h2 : vecLen v < CAR_FRICTION * dt
    · refine ⟨?_, ⟨0, le_refl 0, ?_⟩, hzero⟩
      · rw [applyRollingFriction_eq, if_neg (not_le.mpr h1), if_pos h2, hlen00,
          max_eq_left (by linarith : vecLen v - CAR_FRICTION * dt ≤ 0)]
      · rw [applyRollingFriction_eq, if_neg (not_le.mpr h1), if_pos h2]
        norm_num
    · push_neg at h2
      have hsne : vecLen v ≠ 0 := ne_of_gt h1
      have hcnn : (0 : ℝ) ≤ 1 - CAR_FRICTION * dt / vecLen v := by
        have hd1 : CAR_FRICTION * dt / vecLen v ≤ 1 := (div_le_one h1).mpr h2
        linarith
      have hcomp : applyRollingFriction v dt =
          ((1 - CAR_FRICTION * dt / vecLen v) * v.1,
            (1 - CAR_FRICTION * dt / vecLen v) * v.2) := by
        rw [applyRollingFriction_eq, if_neg (not_le.mpr h1), if_neg (not_lt.mpr h2)]
        refine Prod.ext ?_ ?_ <;> (field_simp; ring)
      refine ⟨?_, ⟨1 - CAR_FRICTION * dt / vecLen v, hcnn, hcomp⟩, hzero⟩
      rw [hcomp]
      have h3 : vecLen ((1 - CAR_FRICTION * dt / vecLen v) * v.1,
          (1 - CAR_FRICTION * dt / vecLen v) * v.2) =
          (1 - CAR_FRICTION * dt / vecLen v) * vecLen v := by
        unfold vecLen
        rw [show ((1 - CAR_FRICTION * dt / Real.sqrt (v.1 ^ 2 + v.2 ^ 2)) * v.1) ^ 2 +
            ((1 - CAR_FRICTION * dt / Real.sqrt (v.1 ^ 2 + v.2 ^ 2)) * v.2) ^ 2 =
            (1 - CAR_FRICTION * dt / Real.sqrt (v.1 ^ 2 + v.2 ^ 2)) ^ 2 *
              (v.1 ^ 2 + v.2 ^ 2) from by ring]
        rw [Real.sqrt_mul (sq_nonneg _), Real.sqrt_sq_eq_abs]
        rw [abs_of_nonneg (by unfold vecLen at hcnn; exact hcnn)]
      rw [h3]
      have h4 : (1 - CAR_FRICTION * dt / vecLen v) * vecLen v =
          vecLen v - CAR_FRICTION * dt := by
        field_simp
      rw [h4, max_eq_right (by linarith)]

/-- Witness for `apply_rolling_friction_spec` at `v = (3, 4)`,
`dt = 1/100`. -/
theorem apply_rolling_friction_spec_witness :
    (0 : ℝ) ≤ 1/100 ∧
      (vecLen (applyRollingFriction ((3 : ℝ), (4 : ℝ)) (1/100)) =
          max 0 (vecLen ((3 : ℝ), (4 : ℝ)) - CAR_FRICTION * (1/100)) ∧
        (∃ c : ℝ, 0 ≤ c ∧
          applyRollingFriction ((3 : ℝ), (4 : ℝ)) (1/100) =
            (c * ((3 : ℝ), (4 : ℝ)).1, c * ((3 : ℝ), (4 : ℝ)).2)) ∧
        applyRollingFriction ((0 : ℝ), (0 : ℝ)) (1/100) = ((0 : ℝ), (0 : ℝ))) :=
  ⟨by norm_num, apply_rolling_friction_spec ((3 : ℝ), (4 : ℝ)) (1/100) (by norm_num)⟩

theorem vecLen_polar {r θ : ℝ} (hr : 0 ≤ r) :
    vecLen (r * Real.cos θ, r * Real.sin θ) = r := by
  unfold vecLen
  rw [show (r * Real.cos θ) ^ 2 + (r * Real.sin θ) ^ 2 =
      r ^ 2 * (Real.cos θ ^ 2 + Real.sin θ ^ 2) from by ring,
    Real.cos_sq_add_sin_sq, mul_one, Real.sqrt_sq hr]

theorem atan2_polar {r θ : ℝ} (hr : 0 < r) (hθ : θ ∈ Set.Ioc (-Real.pi) Real.pi) :
    atan2 (r * Real.sin θ) (r * Real.cos θ) = θ := by
  unfold atan2
  rw [show Complex.ofReal (r * Real.cos θ) + Complex.ofReal (r * Real.sin θ) * Complex.I =
      (r : ℂ) * (Complex.cos θ + Complex.sin θ * Complex.I) from by push_cast; ring]
  rw [Complex.arg_real_mul _ hr, Complex.arg_cos_add_sin_mul_I hθ]

/-- The local point at angle exactly 45° and distance `ROAD_WIDTH / 2`. -/
noncomputable def pt45 : ℝ × ℝ := (25 * Real.cos (Real.pi / 4), 25 * Real.sin (Real.pi / 4))

/-- The local point at angle 44.9° and distance `ROAD_WIDTH / 2`. -/
noncomputable def pt449 : ℝ × ℝ :=
  (25 * Real.cos (449 * Real.pi / 1800), 25 * Real.sin (449 * Real.pi / 1800))

/-- C7: both corner containment tests hold exactly when the distance from the
origin is at most `ROAD_WIDTH` and `atan2(y, x)` lies in `[45°, 135°]` (the
two windows `[π/4, π/4 + π/2]` and `[π/2 − π/4, π − π/4]` coincide, so the
two kinds have extensionally equal tests); the point at angle exactly 45° and
distance `ROAD_WIDTH/2` is inside, the point at angle 44.9° is not. -/
theorem corner_containment_characterization :
    (∀ p : ℝ × ℝ,
      (isPointInCornerLeft p ↔ isPointInCornerRight p) ∧
      (isPointInCornerRight p ↔
        (vecLen p ≤ ROAD_WIDTH ∧
          atan2 p.2 p.1 ∈ Set.Icc (Real.pi / 4) (3 * Real.pi / 4)))) ∧
    isPointInCornerRight pt45 ∧ ¬ isPointInCornerRight pt449 := by
  have hpi := Real.pi_pos
  refine ⟨fun p => ⟨?_, ?_⟩, ?_, ?_⟩
  · unfold isPointInCornerLeft isPointInCornerRight
    constructor <;> rintro ⟨hd, ha1, ha2⟩ <;> exact ⟨hd, by linarith, by linarith⟩
  · unfold isPointInCornerRight
    simp only [Set.mem_Icc]
    constructor <;> rintro ⟨hd, ha1, ha2⟩ <;> exact ⟨hd, ha1, by linarith⟩
  · have hv : vecLen pt45 = 25 := vecLen_polar (by norm_num)
    have ha : atan2 pt45.2 pt45.1 = Real.pi / 4 :=
      atan2_polar (by norm_num) ⟨by linarith, by linarith⟩
    unfold isPointInCornerRight
    rw [hv, ha]
    unfold ROAD_WIDTH
    exact ⟨by norm_num, le_refl _, by linarith⟩
  · intro hcon
    unfold isPointInCornerRight at hcon
    have ha : atan2 pt449.2 pt449.1 = 449 * Real.pi / 1800 :=
      atan2_polar (by norm_num) ⟨by linarith, by linarith⟩
    rw [ha] at hcon
    have hcontra := hcon.2.1
    linarith
